import Mathlib

/-!
Shallow embedding of `remove_anything_video.py` (class `RemoveAnythingVideo`)
and proofs about its mask-selection, propagation and I/O behaviour.

Images and masks are modelled as grids of natural-number pixel values
(`List (List Nat)`), boolean segmentor outputs as grids of `Bool`, and
numpy float scores as exact rationals.  The three wrapped deep-learning
models (tracker, segmentor backbone, inpainter) are external collaborators
and enter the model as oracle function parameters.
-/

namespace RAV

/-- An 8-bit raster image (rows of pixel values), as loaded by
`load_img_to_array`. -/
abbrev Image := List (List Nat)

/-- A single-channel mask raster (uint8 pixel values). -/
abbrev Mask := List (List Nat)

/-- A boolean-valued mask as returned by the segmentor's `predict`
(`Output masks are boolean-valued at this stage`). -/
abbrev BMask := List (List Bool)

/-- A bounding box in (x, y, w, h) order, as used by `forward_tracker` and
`get_box_from_mask`. -/
abbrev Box := Int × Int × Int × Int

/-- A prompt for the segmentor: either point coordinates with labels
(key frame) or a box in (x1, y1, x2, y2) form (propagation stage). -/
inductive Prompt
  | points (coords : List (Int × Int)) (labels : List Int)
  | box (b : Box)
deriving DecidableEq

/-- The function `numpy.argmin` paired with the minimum value: first index attaining the
minimum of the list, `none` on an empty list (numpy raises there). -/
def argminPair : List ℚ → Option (Nat × ℚ)
  | [] => none
  | x :: xs =>
    match argminPair xs with
    | none => some (0, x)
    | some (i, v) => if x ≤ v then some (0, x) else some (i + 1, v)

/-- The function `numpy.argmax` paired with the maximum value: first index attaining the
maximum of the list, `none` on an empty list (numpy raises there). -/
def argmaxPair : List ℚ → Option (Nat × ℚ)
  | [] => none
  | x :: xs =>
    match argmaxPair xs with
    | none => some (0, x)
    | some (i, v) => if v ≤ x then some (0, x) else some (i + 1, v)

/-- Sum over one row pair of squared differences of pixels, both operands
cast to integers first (`masks.astype(np.int32) - ref_mask.astype(np.int32)`). -/
def row_sq_diff (a b : List Nat) : Int :=
  ((a.zip b).map (fun p => ((p.1 : Int) - (p.2 : Int)) ^ 2)).sum

/-- Sum of squared pixel differences over a whole mask pair. -/
def sq_diff_sum (a b : Mask) : Int :=
  ((a.zip b).map (fun p => row_sq_diff p.1 p.2)).sum

/-- Number of pixel positions the two masks share (equals height × width when
the shapes agree, as they do for the numpy arrays in the source). -/
def pix_count (a b : Mask) : Nat :=
  ((a.zip b).map (fun p => min p.1.length p.2.length)).sum

/-- Mean squared pixel-wise difference of a candidate mask against a
reference mask, the per-candidate entry of
`np.mean((masks.astype(np.int32) - ref_mask.astype(np.int32))**2, axis=(-2,-1))`. -/
def mse (a b : Mask) : ℚ := (sq_diff_sum a b : ℚ) / (pix_count a b : ℚ)

/-- Shape agreement between two rasters (same height, rows of equal width):
the situation of the numpy arrays handed to `mask_selection`. -/
def same_shape (a b : Mask) : Bool :=
  a.length == b.length && (a.zip b).all (fun p => p.1.length == p.2.length)

/-- The method `RemoveAnythingVideo.mask_selection`.  Interactive mode raises
`NotImplementedError` (modelled as `none`); with a reference mask the
candidate of minimal mean squared difference is returned
(`idx = mse.argmin()`); otherwise the candidate of maximal confidence score
(`idx = scores.argmax()`).  `none` also models the numpy/indexing errors on
empty or mismatched inputs. -/
def mask_selection (masks : List Mask) (scores : List ℚ)
    (ref_mask : Option Mask) (interactive : Bool) : Option Mask :=
  if interactive then none
  else
    match ref_mask with
    | some r =>
      match argminPair (masks.map (fun m => mse m r)) with
      | none => none
      | some (i, _) => masks[i]?
    | none =>
      match argmaxPair scores with
      | none => none
      | some (i, _) => masks[i]?

theorem argminPair_eq_none (l : List ℚ) (h : argminPair l = none) : l = [] := by
  cases l with
  | nil => rfl
  | cons x xs =>
    unfold argminPair at h
    cases hx : argminPair xs with
    | none => rw [hx] at h; cases h
    | some p =>
      obtain ⟨i, v⟩ := p
      rw [hx] at h
      by_cases hle : x ≤ v <;> simp [hle] at h

theorem argminPair_of_ne_nil (l : List ℚ) (h : l ≠ []) :
    ∃ i v, argminPair l = some (i, v) := by
  cases hl : argminPair l with
  | none => exact absurd (argminPair_eq_none l hl) h
  | some p =>
    obtain ⟨i, v⟩ := p
    exact ⟨i, v, rfl⟩

theorem argminPair_getElem (l : List ℚ) :
    ∀ i v, argminPair l = some (i, v) → l[i]? = some v := by
  induction l with
  | nil => intro i v h; simp [argminPair] at h
  | cons x xs ih =>
    intro i v h
    unfold argminPair at h
    cases hx : argminPair xs with
    | none =>
      rw [hx] at h
      simp only [Option.some.injEq, Prod.mk.injEq] at h
      obtain ⟨rfl, rfl⟩ := h.symm
      simp
    | some p =>
      obtain ⟨i', v'⟩ := p
      rw [hx] at h
      by_cases hle : x ≤ v'
      · simp only [if_pos hle, Option.some.injEq, Prod.mk.injEq] at h
        obtain ⟨rfl, rfl⟩ := h.symm
        simp
      · simp only [if_neg hle, Option.some.injEq, Prod.mk.injEq] at h
        obtain ⟨rfl, rfl⟩ := h.symm
        simpa using ih i' v' hx

theorem argminPair_min (l : List ℚ) :
    ∀ i v, argminPair l = some (i, v) → ∀ (j : Nat) (w : ℚ), l[j]? = some w → v ≤ w := by
  induction l with
  | nil => intro i v h; simp [argminPair] at h
  | cons x xs ih =>
    intro i v h j w hj
    unfold argminPair at h
    cases hx : argminPair xs with
    | none =>
      rw [hx] at h
      simp only [Option.some.injEq, Prod.mk.injEq] at h
      obtain ⟨rfl, rfl⟩ := h.symm
      have hxs : xs = [] := argminPair_eq_none xs hx
      subst hxs
      cases j with
      | zero =>
        simp only [List.getElem?_cons_zero, Option.some.injEq] at hj
        exact le_of_eq hj
      | succ j' => simp at hj
    | some p =>
      obtain ⟨i', v'⟩ := p
      rw [hx] at h
      by_cases hle : x ≤ v'
      · simp only [if_pos hle, Option.some.injEq, Prod.mk.injEq] at h
        obtain ⟨rfl, rfl⟩ := h.symm
        cases j with
        | zero =>
          simp only [List.getElem?_cons_zero, Option.some.injEq] at hj
          exact le_of_eq hj
        | succ j' =>
          exact le_trans hle (ih i' v' hx j' w (by simpa using hj))
      · simp only [if_neg hle, Option.some.injEq, Prod.mk.injEq] at h
        obtain ⟨rfl, rfl⟩ := h.symm
        cases j with
        | zero =>
          simp only [List.getElem?_cons_zero, Option.some.injEq] at hj
          subst hj
          exact le_of_lt (lt_of_not_le hle)
        | succ j' => exact ih i' v' hx j' w (by simpa using hj)

theorem argminPair_first (l : List ℚ) :
    ∀ i v, argminPair l = some (i, v) →
      ∀ (j : Nat) (w : ℚ), j < i → l[j]? = some w → v < w := by
  induction l with
  | nil => intro i v h; simp [argminPair] at h
  | cons x xs ih =>
    intro i v h j w hji hj
    unfold argminPair at h
    cases hx : argminPair xs with
    | none =>
      rw [hx] at h
      simp only [Option.some.injEq, Prod.mk.injEq] at h
      obtain ⟨rfl, rfl⟩ := h.symm
      exact absurd hji (Nat.not_lt_zero j)
    | some p =>
      obtain ⟨i', v'⟩ := p
      rw [hx] at h
      by_cases hle : x ≤ v'
      · simp only [if_pos hle, Option.some.injEq, Prod.mk.injEq] at h
        obtain ⟨rfl, rfl⟩ := h.symm
        exact absurd hji (Nat.not_lt_zero j)
      · simp only [if_neg hle, Option.some.injEq, Prod.mk.injEq] at h
        obtain ⟨rfl, rfl⟩ := h.symm
        cases j with
        | zero =>
          simp only [List.getElem?_cons_zero, Option.some.injEq] at hj
          subst hj
          exact lt_of_not_le hle
        | succ j' =>
          exact ih i' v' hx j' w (Nat.lt_of_succ_lt_succ hji) (by simpa using hj)

theorem argmaxPair_eq_none (l : List ℚ) (h : argmaxPair l = none) : l = [] := by
  cases l with
  | nil => rfl
  | cons x xs =>
    unfold argmaxPair at h
    cases hx : argmaxPair xs with
    | none => rw [hx] at h; cases h
    | some p =>
      obtain ⟨i, v⟩ := p
      rw [hx] at h
      by_cases hle : v ≤ x <;> simp [hle] at h

theorem argmaxPair_of_ne_nil (l : List ℚ) (h : l ≠ []) :
    ∃ i v, argmaxPair l = some (i, v) := by
  cases hl : argmaxPair l with
  | none => exact absurd (argmaxPair_eq_none l hl) h
  | some p =>
    obtain ⟨i, v⟩ := p
    exact ⟨i, v, rfl⟩

theorem argmaxPair_getElem (l : List ℚ) :
    ∀ i v, argmaxPair l = some (i, v) → l[i]? = some v := by
  induction l with
  | nil => intro i v h; simp [argmaxPair] at h
  | cons x xs ih =>
    intro i v h
    unfold argmaxPair at h
    cases hx : argmaxPair xs with
    | none =>
      rw [hx] at h
      simp only [Option.some.injEq, Prod.mk.injEq] at h
      obtain ⟨rfl, rfl⟩ := h.symm
      simp
    | some p =>
      obtain ⟨i', v'⟩ := p
      rw [hx] at h
      by_cases hle : v' ≤ x
      · simp only [if_pos hle, Option.some.injEq, Prod.mk.injEq] at h
        obtain ⟨rfl, rfl⟩ := h.symm
        simp
      · simp only [if_neg hle, Option.some.injEq, Prod.mk.injEq] at h
        obtain ⟨rfl, rfl⟩ := h.symm
        simpa using ih i' v' hx

theorem argmaxPair_max (l : List ℚ) :
    ∀ i v, argmaxPair l = some (i, v) → ∀ (j : Nat) (w : ℚ), l[j]? = some w → w ≤ v := by
  induction l with
  | nil => intro i v h; simp [argmaxPair] at h
  | cons x xs ih =>
    intro i v h j w hj
    unfold argmaxPair at h
    cases hx : argmaxPair xs with
    | none =>
      rw [hx] at h
      simp only [Option.some.injEq, Prod.mk.injEq] at h
      obtain ⟨rfl, rfl⟩ := h.symm
      have hxs : xs = [] := argmaxPair_eq_none xs hx
      subst hxs
      cases j with
      | zero =>
        simp only [List.getElem?_cons_zero, Option.some.injEq] at hj
        exact le_of_eq hj.symm
      | succ j' => simp at hj
    | some p =>
      obtain ⟨i', v'⟩ := p
      rw [hx] at h
      by_cases hle : v' ≤ x
      · simp only [if_pos hle, Option.some.injEq, Prod.mk.injEq] at h
        obtain ⟨rfl, rfl⟩ := h.symm
        cases j with
        | zero =>
          simp only [List.getElem?_cons_zero, Option.some.injEq] at hj
          exact le_of_eq hj.symm
        | succ j' =>
          exact le_trans (ih i' v' hx j' w (by simpa using hj)) hle
      · simp only [if_neg hle, Option.some.injEq, Prod.mk.injEq] at h
        obtain ⟨rfl, rfl⟩ := h.symm
        cases j with
        | zero =>
          simp only [List.getElem?_cons_zero, Option.some.injEq] at hj
          subst hj
          exact le_of_lt (lt_of_not_le hle)
        | succ j' => exact ih i' v' hx j' w (by simpa using hj)

theorem argmaxPair_first (l : List ℚ) :
    ∀ i v, argmaxPair l = some (i, v) →
      ∀ (j : Nat) (w : ℚ), j < i → l[j]? = some w → w < v := by
  induction l with
  | nil => intro i v h; simp [argmaxPair] at h
  | cons x xs ih =>
    intro i v h j w hji hj
    unfold argmaxPair at h
    cases hx : argmaxPair xs with
    | none =>
      rw [hx] at h
      simp only [Option.some.injEq, Prod.mk.injEq] at h
      obtain ⟨rfl, rfl⟩ := h.symm
      exact absurd hji (Nat.not_lt_zero j)
    | some p =>
      obtain ⟨i', v'⟩ := p
      rw [hx] at h
      by_cases hle : v' ≤ x
      · simp only [if_pos hle, Option.some.injEq, Prod.mk.injEq] at h
        obtain ⟨rfl, rfl⟩ := h.symm
        exact absurd hji (Nat.not_lt_zero j)
      · simp only [if_neg hle, Option.some.injEq, Prod.mk.injEq] at h
        obtain ⟨rfl, rfl⟩ := h.symm
        cases j with
        | zero =>
          simp only [List.getElem?_cons_zero, Option.some.injEq] at hj
          subst hj
          exact lt_of_not_le hle
        | succ j' =>
          exact ih i' v' hx j' w (Nat.lt_of_succ_lt_succ hji) (by simpa using hj)

/-- C1: with a non-`None` reference mask and non-interactive mode,
`mask_selection` returns the candidate whose mean squared pixel-wise
difference against the reference (both cast to integers first) is minimal;
ties go to the lowest candidate index; the result does not depend on the
confidence scores, so it is a deterministic function of the candidates and
the reference. -/
theorem mask_selection_with_reference
    (masks : List Mask) (scores : List ℚ) (r : Mask)
    (hne : masks ≠ [])
    (hsh : ∀ m ∈ masks, same_shape m r = true) :
    ∃ (i : Nat) (m : Mask),
      masks[i]? = some m ∧
      mask_selection masks scores (some r) false = some m ∧
      (∀ (j : Nat) (m' : Mask), masks[j]? = some m' → mse m r ≤ mse m' r) ∧
      (∀ (j : Nat) (m' : Mask), j < i → masks[j]? = some m' →
        mse m r < mse m' r) ∧
      (∀ scores' : List ℚ,
        mask_selection masks scores' (some r) false
          = mask_selection masks scores (some r) false) := by
  have hlne : masks.map (fun m => mse m r) ≠ [] := by
    intro hc
    exact hne (by simpa using congrArg List.length hc)
  obtain ⟨i, v, hl⟩ := argminPair_of_ne_nil _ hlne
  have hli := argminPair_getElem _ i v hl
  rw [List.getElem?_map] at hli
  cases hm : masks[i]? with
  | none => rw [hm] at hli; cases hli
  | some m =>
    rw [hm] at hli
    simp only [Option.map_some', Option.some.injEq] at hli
    refine ⟨i, m, hm, ?_, ?_, ?_, fun s' => rfl⟩
    · simp only [mask_selection, Bool.false_eq_true, if_false]
      rw [hl]
      exact hm
    · intro j m' hj
      have hlj : (masks.map (fun m => mse m r))[j]? = some (mse m' r) := by
        rw [List.getElem?_map, hj, Option.map_some']
      have := argminPair_min _ i v hl j (mse m' r) hlj
      rw [hli]
      exact this
    · intro j m' hji hj
      have hlj : (masks.map (fun m => mse m r))[j]? = some (mse m' r) := by
        rw [List.getElem?_map, hj, Option.map_some']
      have := argminPair_first _ i v hl j (mse m' r) hji hlj
      rw [hli]
      exact this

/-- Witness for C1 at a concrete input: two 1-pixel candidates against a
concrete reference. -/
theorem mask_selection_with_reference_witness :
    ∃ m, mask_selection [[[0]], [[255]]] [] (some [[255]]) false = some m := by
  obtain ⟨i, m, -, hsel, -, -, -⟩ :=
    mask_selection_with_reference [[[0]], [[255]]] [] [[255]]
      (by decide) (by decide)
  exact ⟨m, hsel⟩

/-- C6: with no reference mask and non-interactive mode, `mask_selection`
returns the candidate whose confidence score is maximal; ties go to the
first occurrence in candidate order. -/
theorem mask_selection_no_reference
    (masks : List Mask) (scores : List ℚ)
    (hne : scores ≠ [])
    (hlen : masks.length = scores.length) :
    ∃ (i : Nat) (m : Mask) (s : ℚ),
      masks[i]? = some m ∧
      scores[i]? = some s ∧
      mask_selection masks scores none false = some m ∧
      (∀ (j : Nat) (s' : ℚ), scores[j]? = some s' → s' ≤ s) ∧
      (∀ (j : Nat) (s' : ℚ), j < i → scores[j]? = some s' → s' < s) := by
  obtain ⟨i, s, hl⟩ := argmaxPair_of_ne_nil scores hne
  have hsi : scores[i]? = some s := argmaxPair_getElem scores i s hl
  have hilt : i < scores.length := (List.getElem?_eq_some.mp hsi).1
  have himl : i < masks.length := by omega
  refine ⟨i, masks[i], s, List.getElem?_eq_getElem himl, hsi, ?_, ?_, ?_⟩
  · simp only [mask_selection, Bool.false_eq_true, if_false]
    rw [hl]
    exact List.getElem?_eq_getElem himl
  · exact fun j s' hj => argmaxPair_max scores i s hl j s' hj
  · exact fun j s' hji hj => argmaxPair_first scores i s hl j s' hji hj

/-- Witness for C6 at a concrete input: two candidates with distinct
scores. -/
theorem mask_selection_no_reference_witness :
    ∃ m, mask_selection [[[0]], [[255]]] [1, 2] none false = some m := by
  obtain ⟨i, m, s, -, -, hsel, -, -⟩ :=
    mask_selection_no_reference [[[0]], [[255]]] [1, 2]
      (by decide) (by decide)
  exact ⟨m, hsel⟩

/-- The segmentor's "image in context": `none` after `reset_image`,
`some img` after `set_image(img)`.  At most one image is held at a time. -/
abbrev SegState := Option Image

/-- The observable outcome of the segmentor's `predict`: candidate boolean
masks with matching confidence scores. -/
abbrev SegResult := List BMask × List ℚ

/-- Oracle for the external SAM predictor: from the image in context and
the prompt to candidate masks and scores; `none` models a raised error. -/
abbrev Predictor := Image → Prompt → Option SegResult

/-- Oracle for the external OSTrack model: frame paths and an initial
(x, y, w, h) box to one (x, y, w, h) box per frame. -/
abbrev Tracker := List String → Box → List Box

/-- The method `RemoveAnythingVideo.forward_segmentor`: `set_image`, `predict`,
`reset_image`, returning `(masks, scores)`.  The second component is the
segmentor context after the call: when `predict` raises, the exception
propagates before `reset_image` runs, so the context keeps the image. -/
def forward_segmentor (predict : Predictor) (st : SegState) (img : Image)
    (p : Prompt) : Option SegResult × SegState :=
  let st1 : SegState := some img
  match predict img p with
  | some res => (some res, (none : SegState))
  | none => (none, st1)

/-- Boolean pixels cast to integers (`astype`): `True ↦ 1`, `False ↦ 0`. -/
def bmask_to_nat (m : BMask) : List (List Nat) :=
  m.map (fun row => row.map (fun b => if b then 1 else 0))

/-- The step `(mask * 255).astype(np.uint8)`: scale each pixel by 255 and truncate
to 8 bits. -/
def binarize (m : List (List Nat)) : Mask :=
  m.map (fun row => row.map (fun v => v * 255 % 256))

/-- Pixel read with zero padding outside the raster. -/
def getPx (m : Mask) (i j : Int) : Nat :=
  if 0 ≤ i ∧ 0 ≤ j then
    match m[i.toNat]? with
    | some row => (row[j.toNat]?).getD 0
    | none => 0
  else 0

/-- Maximum pixel value in the square window of Chebyshev radius `r`
centred at `(i, j)`. -/
def window_max (m : Mask) (r : Nat) (i j : Nat) : Nat :=
  ((List.range (2 * r + 1)).map (fun di =>
    ((List.range (2 * r + 1)).map (fun dj =>
      getPx m ((i : Int) + (di : Int) - (r : Int))
        ((j : Int) + (dj : Int) - (r : Int)))).foldr max 0)).foldr max 0

/-- Modelled from the spec: `dilate_mask` (imported from `utils`, whose
source is not part of this file's repository snapshot) — "morphological
expansion of a mask's foreground region by a structuring element of given
kernel size", here a square structuring element of size `k` realised as
the Chebyshev window of radius `(k - 1) / 2`; for a non-positive `k` the
structuring element is empty, and dilation by an empty structuring element
yields the all-zero mask (a supremum over an empty window). -/
def dilate_mask (k : Int) (m : Mask) : Mask :=
  if k ≤ 0 then m.map (fun row => row.map (fun _ => 0))
  else
    let r := ((k - 1) / 2).toNat
    (List.range m.length).map (fun i =>
      match m[i]? with
      | some row => (List.range row.length).map (fun j => window_max m r i j)
      | none => [])

/-- The guarded dilation step of `forward`
(`if dilate_kernel_size is not None: mask = dilate_mask(mask, dilate_kernel_size)`). -/
def apply_dilation (dk : Option Int) (m : Mask) : Mask :=
  match dk with
  | some k => dilate_mask k m
  | none => m

/-- The declared default of `forward`'s `dilate_kernel_size` parameter
(`dilate_kernel_size: int = 15`). -/
def dilate_kernel_size_default : Option Int := some 15

/-- Coordinates (row, column) of the non-zero pixels of a mask. -/
def nonzero_cells (m : Mask) : List (Nat × Nat) :=
  (m.enum.map (fun p =>
    p.2.enum.filterMap (fun q =>
      if q.2 ≠ 0 then some (p.1, q.1) else none))).flatten

/-- The method `RemoveAnythingVideo.get_box_from_mask`, modelling `cv2.boundingRect`:
the smallest (x, y, w, h) rectangle enclosing all non-zero pixels,
`(0, 0, 0, 0)` for an all-zero mask. -/
def get_box_from_mask (m : Mask) : Box :=
  match nonzero_cells m with
  | [] => (0, 0, 0, 0)
  | c :: cs =>
    let minr := (cs.map Prod.fst).foldr min c.1
    let maxr := (cs.map Prod.fst).foldr max c.1
    let minc := (cs.map Prod.snd).foldr min c.2
    let maxc := (cs.map Prod.snd).foldr max c.2
    ((minc : Int), (minr : Int), ((maxc - minc + 1 : Nat) : Int),
      ((maxr - minr + 1 : Nat) : Int))

/-- The XYWH → XYXY conversion of the propagation stage
(`x, y, w, h = box; sam_box = np.array([x, y, x + w, y + h])`). -/
def xywh_to_xyxy (b : Box) : Box :=
  (b.1, b.2.1, b.1 + b.2.2.1, b.2.1 + b.2.2.2)

/-- The method `RemoveAnythingVideo.forward_tracker`: hands the frame paths and the
initial box to the external OSTrack model, which returns one (x, y, w, h)
box per frame. -/
def forward_tracker (tracker : Tracker) (frames_ps : List String)
    (init_box : Box) : List Box :=
  tracker frames_ps init_box

/-- Observable side effects of a `forward` run: calls into the segmentor
and tracker adapters, and image files written to disk. -/
inductive Event
  | seg_predict
  | tracker_run
  | file_write (path : String) (data : Mask)
deriving DecidableEq

/-- The key-frame stage of `RemoveAnythingVideo.forward`: assert
`key_frame_idx == 0`, load the key frame, run the segmentor with the point
prompt, pick the key mask (manual index if given, else `mask_selection` by
score), binarize, optionally dilate, and write the result to `"mask.png"`.
Returns the loaded key frame and the key mask together with the trace of
side effects up to that point. -/
def key_stage (load_img : String → Image) (predict : Predictor)
    (frame_ps : List String) (key_frame_idx : Int)
    (key_frame_point_coords : List (Int × Int))
    (key_frame_point_labels : List Int)
    (key_frame_mask_idx : Option Nat) (dilate_kernel_size : Option Int) :
    Except String (Image × Mask) × List Event :=
  if key_frame_idx ≠ 0 then
    (Except.error "Only support key frame at the beginning.", [])
  else
    match frame_ps with
    | [] => (Except.error "IndexError: list index out of range", [])
    | key_frame_p :: _ =>
      let key_frame := load_img key_frame_p
      match (forward_segmentor predict none key_frame
          (Prompt.points key_frame_point_coords key_frame_point_labels)).1 with
      | none => (Except.error "predict raised", [Event.seg_predict])
      | some (key_masks, key_scores) =>
        let sel : Option (List (List Nat)) :=
          match key_frame_mask_idx with
          | some i => (key_masks.map bmask_to_nat)[i]?
          | none =>
            mask_selection (key_masks.map bmask_to_nat) key_scores none false
        match sel with
        | none =>
          (Except.error "key mask selection failed", [Event.seg_predict])
        | some km0 =>
          let key_mask := apply_dilation dilate_kernel_size (binarize km0)
          (Except.ok (key_frame, key_mask),
            [Event.seg_predict, Event.file_write "mask.png" key_mask])

/-- One iteration of the propagation loop of `forward`: load the frame,
convert the tracked box to XYXY, run the segmentor with the box as sole
prompt, scale the candidates to uint8, select against the previous frame's
mask, and optionally dilate. -/
def prop_step (load_img : String → Image) (predict : Predictor)
    (dilate_kernel_size : Option Int) (ref_mask : Mask)
    (frame_p : String) (box : Box) :
    Except String (Image × Mask) × List Event :=
  let frame := load_img frame_p
  let sam_box := xywh_to_xyxy box
  match (forward_segmentor predict none frame (Prompt.box sam_box)).1 with
  | none => (Except.error "predict raised", [Event.seg_predict])
  | some (bmasks, scores) =>
    let masks := (bmasks.map bmask_to_nat).map binarize
    match mask_selection masks scores (some ref_mask) false with
    | none => (Except.error "mask selection failed", [Event.seg_predict])
    | some m =>
      (Except.ok (frame, apply_dilation dilate_kernel_size m),
        [Event.seg_predict])

/-- The propagation loop of `forward`: folds `prop_step` over the zipped
tail frames and tail boxes, each selected mask becoming the reference mask
for the next frame. -/
def prop_loop (load_img : String → Image) (predict : Predictor)
    (dilate_kernel_size : Option Int) (ref_mask : Mask) :
    List (String × Box) → Except String (List Image × List Mask) × List Event
  | [] => (Except.ok ([], []), [])
  | (fp, b) :: rest =>
    match prop_step load_img predict dilate_kernel_size ref_mask fp b with
    | (Except.error e, tr) => (Except.error e, tr)
    | (Except.ok (f, m), tr) =>
      match prop_loop load_img predict dilate_kernel_size m rest with
      | (Except.error e, tr2) => (Except.error e, tr ++ tr2)
      | (Except.ok (fs, ms), tr2) => (Except.ok (f :: fs, m :: ms), tr ++ tr2)

/-- The method `RemoveAnythingVideo.forward`: key-frame stage, tracking stage,
propagation stage; returns all frames, all masks and all tracked boxes,
paired with the trace of adapter calls and file writes. -/
def forward (load_img : String → Image) (predict : Predictor)
    (tracker : Tracker) (frame_ps : List String) (key_frame_idx : Int)
    (key_frame_point_coords : List (Int × Int))
    (key_frame_point_labels : List Int)
    (key_frame_mask_idx : Option Nat) (dilate_kernel_size : Option Int) :
    Except String (List Image × List Mask × List Box) × List Event :=
  match key_stage load_img predict frame_ps key_frame_idx
      key_frame_point_coords key_frame_point_labels key_frame_mask_idx
      dilate_kernel_size with
  | (Except.error e, tr) => (Except.error e, tr)
  | (Except.ok (key_frame, key_mask), tr) =>
    let key_box := get_box_from_mask key_mask
    let all_box := forward_tracker tracker frame_ps key_box
    match prop_loop load_img predict dilate_kernel_size key_mask
        ((frame_ps.drop 1).zip (all_box.drop 1)) with
    | (Except.error e, tr2) =>
      (Except.error e, tr ++ Event.tracker_run :: tr2)
    | (Except.ok (frames, masks), tr2) =>
      (Except.ok (key_frame :: frames, key_mask :: masks, all_box),
        tr ++ Event.tracker_run :: tr2)

/-- A constant image loader used in the concrete runs below. -/
def cLoad : String → Image := fun _ => [[7]]

/-- A predictor returning one single-pixel foreground candidate. -/
def cPredict : Predictor := fun _ _ => some ([[[true]]], [1])

/-- A tracker returning one zero box per frame. -/
def cTrack : Tracker :=
  fun ps _ => ps.map (fun _ => ((0 : Int), (0 : Int), (0 : Int), (0 : Int)))

/-- C3: invoking `forward` with a key-frame index other than 0 fails with
the assertion error `"Only support key frame at the beginning."` and the
side-effect trace is empty — no tracker, segmentor or inpainter adapter is
invoked and no recovery is attempted. -/
theorem forward_nonzero_key_frame_idx (load_img : String → Image)
    (predict : Predictor) (tracker : Tracker) (frame_ps : List String)
    (key_frame_idx : Int) (coords : List (Int × Int)) (labels : List Int)
    (key_frame_mask_idx : Option Nat) (dilate_kernel_size : Option Int)
    (h : key_frame_idx ≠ 0) :
    forward load_img predict tracker frame_ps key_frame_idx coords labels
        key_frame_mask_idx dilate_kernel_size
      = (Except.error "Only support key frame at the beginning.", []) := by
  unfold forward key_stage
  simp [h]

/-- Witness for C3 at a concrete input: key-frame index 1. -/
theorem forward_nonzero_key_frame_idx_witness :
    forward cLoad cPredict cTrack ["f0"] 1 [] [] none none
      = (Except.error "Only support key frame at the beginning.", []) :=
  forward_nonzero_key_frame_idx cLoad cPredict cTrack ["f0"] 1 [] [] none
    none (by decide)

/-- C9: the propagation-stage box conversion maps (x, y, w, h) to
(x1, y1, x2, y2) with x1 = x, y1 = y, x2 = x + w, y2 = y + h exactly, for
all non-negative widths and heights. -/
theorem xywh_to_xyxy_exact (x y w h : Int) (hw : 0 ≤ w) (hh : 0 ≤ h) :
    xywh_to_xyxy (x, y, w, h) = (x, y, x + w, y + h) := rfl

/-- Witness for C9 at a concrete box. -/
theorem xywh_to_xyxy_exact_witness :
    (0 : Int) ≤ 4 ∧ (0 : Int) ≤ 5 ∧
      xywh_to_xyxy (2, 3, 4, 5) = (2, 3, 6, 8) :=
  ⟨by decide, by decide, xywh_to_xyxy_exact 2 3 4 5 (by decide) (by decide)⟩

/-- C5 counterexample: when `predict` raises, `forward_segmentor` does not
release the image set before the call — there is no `try/finally` around
`predict`, so on the failure exit path the segmentor context is left
holding the image. -/
theorem forward_segmentor_failure_keeps_context :
    (forward_segmentor (fun _ _ => none) none [[1]]
      (Prompt.box (0, 0, 0, 0))).2 = some [[1]] := rfl

/-- C5 amended: on every successful `predict`, `forward_segmentor`
releases the context image after the call (`reset_image`); when `predict`
raises, the exception propagates with the image still in context. -/
theorem forward_segmentor_success_releases (predict : Predictor)
    (st : SegState) (img : Image) (p : Prompt) (res : SegResult)
    (h : predict img p = some res) :
    forward_segmentor predict st img p = (some res, none) := by
  unfold forward_segmentor
  rw [h]

/-- Witness for the amended C5 at a concrete successful call. -/
theorem forward_segmentor_success_releases_witness :
    forward_segmentor cPredict none [[7]] (Prompt.points [] [])
      = (some ([[[true]]], [1]), none) :=
  forward_segmentor_success_releases cPredict none [[7]]
    (Prompt.points [] []) ([[[true]]], [1]) rfl

/-- C4 counterexample: with dilation kernel size 0 — non-positive but not
absent — the selected key mask does not pass through undilated: the run
returns the dilated mask `[[0]]` where the selected binarized candidate
was `[[255]]`. -/
theorem forward_nonpositive_kernel_still_dilates :
    (forward cLoad cPredict cTrack ["f0"] 0 [] [] (some 0) (some 0)).1
      = Except.ok ([[[7]]], [[[0]]],
          [((0 : Int), (0 : Int), (0 : Int), (0 : Int))]) ∧
    ([[0]] : Mask) ≠ binarize (bmask_to_nat [[true]]) :=
  ⟨rfl, by decide⟩

/-- C4 amended: in `forward`, dilation is skipped exactly when the kernel
size argument is absent (`None`); every supplied value, non-positive ones
included, is handed to `dilate_mask`; the declared default of the
parameter is 15; and with an absent kernel size, the mask recorded by a
propagation step is exactly the mask `mask_selection` chose, undilated. -/
theorem forward_dilation_policy (m : Mask) :
    apply_dilation none m = m ∧
    (∀ k : Int, apply_dilation (some k) m = dilate_mask k m) ∧
    dilate_kernel_size_default = some 15 ∧
    (∀ (load_img : String → Image) (predict : Predictor) (ref : Mask)
        (fp : String) (b : Box) (f : Image) (m' : Mask) (tr : List Event),
      prop_step load_img predict none ref fp b = (Except.ok (f, m'), tr) →
      ∃ bmasks scores,
        (forward_segmentor predict none (load_img fp)
          (Prompt.box (xywh_to_xyxy b))).1 = some (bmasks, scores) ∧
        mask_selection ((bmasks.map bmask_to_nat).map binarize) scores
          (some ref) false = some m') := by
  refine ⟨rfl, fun k => rfl, rfl, ?_⟩
  intro load_img predict ref fp b f m' tr h
  unfold prop_step at h
  dsimp only [] at h
  cases hp : (forward_segmentor predict none (load_img fp)
      (Prompt.box (xywh_to_xyxy b))).1 with
  | none => rw [hp] at h; cases h
  | some res =>
    obtain ⟨bmasks, scores⟩ := res
    rw [hp] at h
    dsimp only [] at h
    cases hs : mask_selection ((bmasks.map bmask_to_nat).map binarize)
        scores (some ref) false with
    | none => rw [hs] at h; cases h
    | some msel =>
      rw [hs] at h
      simp only [Prod.mk.injEq, Except.ok.injEq] at h
      obtain ⟨⟨-, hm⟩, -⟩ := h
      refine ⟨bmasks, scores, rfl, ?_⟩
      rw [hs]
      exact congrArg some (by simpa [apply_dilation] using hm)

/-- Witness for the amended C4 at a concrete propagation step. -/
theorem forward_dilation_policy_witness :
    ∃ bmasks scores,
      (forward_segmentor cPredict none (cLoad "f1")
        (Prompt.box (xywh_to_xyxy (0, 0, 0, 0)))).1 = some (bmasks, scores) ∧
      mask_selection ((bmasks.map bmask_to_nat).map binarize) scores
        (some [[255]]) false = some [[255]] :=
  (forward_dilation_policy [[0]]).2.2.2 cLoad cPredict [[255]] "f1"
    (0, 0, 0, 0) [[7]] [[255]] [Event.seg_predict] rfl

theorem mask_selection_mem (masks : List Mask) (scores : List ℚ)
    (ref : Option Mask) (ia : Bool) (m : Mask)
    (h : mask_selection masks scores ref ia = some m) : m ∈ masks := by
  cases ia with
  | true => simp [mask_selection] at h
  | false =>
    cases ref with
    | some r =>
      unfold mask_selection at h
      simp only [Bool.false_eq_true, if_false] at h
      cases hx : argminPair (masks.map (fun m => mse m r)) with
      | none => rw [hx] at h; cases h
      | some p =>
        obtain ⟨i, v⟩ := p
        rw [hx] at h
        exact List.getElem?_mem h
    | none =>
      unfold mask_selection at h
      simp only [Bool.false_eq_true, if_false] at h
      cases hx : argmaxPair scores with
      | none => rw [hx] at h; cases h
      | some p =>
        obtain ⟨i, v⟩ := p
        rw [hx] at h
        exact List.getElem?_mem h

theorem mask_selection_ref_isSome (masks : List Mask) (scores : List ℚ)
    (r : Mask) (hne : masks ≠ []) :
    ∃ m, mask_selection masks scores (some r) false = some m := by
  have hlne : masks.map (fun m => mse m r) ≠ [] := by
    intro hc
    exact hne (by simpa using congrArg List.length hc)
  obtain ⟨i, v, hl⟩ := argminPair_of_ne_nil _ hlne
  have hli := argminPair_getElem _ i v hl
  have hlt : i < masks.length := by
    have := (List.getElem?_eq_some.mp hli).1
    simpa using this
  refine ⟨masks[i], ?_⟩
  simp only [mask_selection, Bool.false_eq_true, if_false]
  rw [hl]
  exact List.getElem?_eq_getElem hlt

theorem zip_getElem?_some {α β : Type} :
    ∀ (a : List α) (b : List β) (i : Nat) (x : α) (y : β),
      (a.zip b)[i]? = some (x, y) → a[i]? = some x ∧ b[i]? = some y := by
  intro a
  induction a with
  | nil => intro b i x y h; simp [List.zip] at h
  | cons ha ta ih =>
    intro b i x y h
    cases b with
    | nil => simp [List.zip] at h
    | cons hb tb =>
      cases i with
      | zero => simp_all [List.zip]
      | succ j => simpa using ih tb j x y (by simpa using h)

/-- All pixel values of a mask are 0 or 255. -/
def bin_pixels (m : Mask) : Prop :=
  ∀ row ∈ m, ∀ v ∈ row, v = 0 ∨ v = 255

theorem bin_pixels_binarize_bmask (bm : BMask) :
    bin_pixels (binarize (bmask_to_nat bm)) := by
  intro row hrow v hv
  simp only [binarize, bmask_to_nat, List.map_map, List.mem_map] at hrow
  obtain ⟨r0, -, rfl⟩ := hrow
  simp only [Function.comp, List.map_map, List.mem_map] at hv
  obtain ⟨b, -, rfl⟩ := hv
  cases b <;> simp

theorem getPx_bin (m : Mask) (h : bin_pixels m) (i j : Int) :
    getPx m i j = 0 ∨ getPx m i j = 255 := by
  unfold getPx
  by_cases hij : 0 ≤ i ∧ 0 ≤ j
  · simp only [if_pos hij]
    cases hr : m[i.toNat]? with
    | none => left; rfl
    | some row =>
      cases hv : row[j.toNat]? with
      | none => left; simp [hv]
      | some v =>
        have hrow : row ∈ m := List.getElem?_mem hr
        have hvm : v ∈ row := List.getElem?_mem hv
        simpa [hv] using h row hrow v hvm
  · simp [hij]

theorem foldr_max_bin (l : List Nat) (h : ∀ v ∈ l, v = 0 ∨ v = 255) :
    l.foldr max 0 = 0 ∨ l.foldr max 0 = 255 := by
  induction l with
  | nil => left; rfl
  | cons x xs ih =>
    have hx := h x (List.mem_cons_self x xs)
    have hxs := ih (fun v hv => h v (List.mem_cons_of_mem x hv))
    have hc : (x :: xs).foldr max 0 = max x (xs.foldr max 0) := rfl
    rw [hc]
    rcases hx with rfl | rfl <;> rcases hxs with h2 | h2 <;> rw [h2] <;> simp

theorem window_max_bin (m : Mask) (h : bin_pixels m) (r i j : Nat) :
    window_max m r i j = 0 ∨ window_max m r i j = 255 := by
  unfold window_max
  apply foldr_max_bin
  intro v hv
  simp only [List.mem_map] at hv
  obtain ⟨di, -, rfl⟩ := hv
  apply foldr_max_bin
  intro w hw
  simp only [List.mem_map] at hw
  obtain ⟨dj, -, rfl⟩ := hw
  exact getPx_bin m h _ _

theorem bin_pixels_dilate (k : Int) (m : Mask) (h : bin_pixels m) :
    bin_pixels (dilate_mask k m) := by
  unfold dilate_mask
  by_cases hk : k ≤ 0
  · simp only [if_pos hk]
    intro row hrow v hv
    simp only [List.mem_map] at hrow
    obtain ⟨r0, -, rfl⟩ := hrow
    simp only [List.mem_map] at hv
    obtain ⟨w, -, rfl⟩ := hv
    left
    rfl
  · simp only [if_neg hk]
    intro row hrow v hv
    simp only [List.mem_map] at hrow
    obtain ⟨i, -, rfl⟩ := hrow
    cases hr : m[i]? with
    | none => rw [hr] at hv; simp at hv
    | some r0 =>
      rw [hr] at hv
      simp only [List.mem_map] at hv
      obtain ⟨j, -, rfl⟩ := hv
      exact window_max_bin m h _ i j

theorem bin_pixels_apply_dilation (dk : Option Int) (m : Mask)
    (h : bin_pixels m) : bin_pixels (apply_dilation dk m) := by
  cases dk with
  | none => exact h
  | some k => exact bin_pixels_dilate k m h

theorem bin_pixels_of_mem_binarized (bmasks : List BMask) (m : Mask)
    (hm : m ∈ (bmasks.map bmask_to_nat).map binarize) : bin_pixels m := by
  simp only [List.map_map, List.mem_map] at hm
  obtain ⟨bm, -, rfl⟩ := hm
  exact bin_pixels_binarize_bmask bm

theorem prop_step_ok (load_img : String → Image) (predict : Predictor)
    (dk : Option Int)
    (hp : ∀ img p, ∃ bms ss, predict img p = some (bms, ss) ∧
      0 < bms.length ∧ bms.length = ss.length)
    (ref : Mask) (fp : String) (b : Box) :
    ∃ m, prop_step load_img predict dk ref fp b
        = (Except.ok (load_img fp, m), [Event.seg_predict]) := by
  obtain ⟨bms, ss, hpred, hlen, -⟩ := hp (load_img fp) (Prompt.box (xywh_to_xyxy b))
  have hne : (bms.map bmask_to_nat).map binarize ≠ [] := by
    intro hc
    have := congrArg List.length hc
    simp only [List.length_map, List.length_nil] at this
    omega
  obtain ⟨m, hsel⟩ :=
    mask_selection_ref_isSome ((bms.map bmask_to_nat).map binarize) ss ref hne
  refine ⟨apply_dilation dk m, ?_⟩
  unfold prop_step forward_segmentor
  dsimp only []
  rw [hpred]
  dsimp only []
  rw [hsel]

theorem prop_loop_ok (load_img : String → Image) (predict : Predictor)
    (dk : Option Int)
    (hp : ∀ img p, ∃ bms ss, predict img p = some (bms, ss) ∧
      0 < bms.length ∧ bms.length = ss.length) :
    ∀ (l : List (String × Box)) (ref : Mask),
      ∃ ms tr, prop_loop load_img predict dk ref l
          = (Except.ok (l.map (fun q => load_img q.1), ms), tr)
        ∧ ms.length = l.length := by
  intro l
  induction l with
  | nil => intro ref; exact ⟨[], [], rfl, rfl⟩
  | cons q rest ih =>
    intro ref
    obtain ⟨fp, b⟩ := q
    obtain ⟨m, hstep⟩ := prop_step_ok load_img predict dk hp ref fp b
    obtain ⟨ms, tr, hloop, hlen⟩ := ih m
    refine ⟨m :: ms, [Event.seg_predict] ++ tr, ?_, by simp [hlen]⟩
    unfold prop_loop
    rw [hstep]
    dsimp only []
    rw [hloop]
    exact rfl

theorem prop_step_sel (load_img : String → Image) (predict : Predictor)
    (dk : Option Int) (ref : Mask) (fp : String) (b : Box)
    (f : Image) (m : Mask) (tr : List Event)
    (h : prop_step load_img predict dk ref fp b = (Except.ok (f, m), tr)) :
    f = load_img fp ∧ tr = [Event.seg_predict] ∧
    ∃ bmasks scores msel,
      predict (load_img fp) (Prompt.box (xywh_to_xyxy b))
        = some (bmasks, scores) ∧
      mask_selection ((bmasks.map bmask_to_nat).map binarize) scores
        (some ref) false = some msel ∧
      m = apply_dilation dk msel := by
  unfold prop_step forward_segmentor at h
  dsimp only [] at h
  cases hpred : predict (load_img fp) (Prompt.box (xywh_to_xyxy b)) with
  | none => rw [hpred] at h; cases h
  | some res =>
    obtain ⟨bmasks, scores⟩ := res
    rw [hpred] at h
    dsimp only [] at h
    cases hsel : mask_selection ((bmasks.map bmask_to_nat).map binarize)
        scores (some ref) false with
    | none => rw [hsel] at h; cases h
    | some msel =>
      rw [hsel] at h
      simp only [Prod.mk.injEq, Except.ok.injEq] at h
      obtain ⟨⟨hf, hm⟩, htr⟩ := h
      exact ⟨hf.symm, htr.symm, bmasks, scores, msel, rfl, hsel, hm.symm⟩

theorem prop_loop_chain (load_img : String → Image) (predict : Predictor)
    (dk : Option Int) :
    ∀ (l : List (String × Box)) (ref : Mask) (fs : List Image)
      (ms : List Mask) (tr : List Event),
      prop_loop load_img predict dk ref l = (Except.ok (fs, ms), tr) →
      ∀ (j : Nat) (r m : Mask), (ref :: ms)[j]? = some r → ms[j]? = some m →
        ∃ fp b f tr2, l[j]? = some (fp, b) ∧ fs[j]? = some f ∧
          prop_step load_img predict dk r fp b = (Except.ok (f, m), tr2) := by
  intro l
  induction l with
  | nil =>
    intro ref fs ms tr h j r m hr hm
    simp only [prop_loop, Prod.mk.injEq, Except.ok.injEq] at h
    obtain ⟨⟨-, hms⟩, -⟩ := h
    rw [← hms] at hm
    simp at hm
  | cons q rest ih =>
    intro ref fs ms tr h j r m hr hm
    obtain ⟨fp, b⟩ := q
    unfold prop_loop at h
    cases hstep : prop_step load_img predict dk ref fp b with
    | mk res1 tr1 =>
      cases res1 with
      | error e => rw [hstep] at h; simp at h
      | ok p1 =>
        obtain ⟨f1, m1⟩ := p1
        rw [hstep] at h
        dsimp only [] at h
        cases hloop : prop_loop load_img predict dk m1 rest with
        | mk res2 tr2 =>
          cases res2 with
          | error e => rw [hloop] at h; simp at h
          | ok p2 =>
            obtain ⟨fs1, ms1⟩ := p2
            rw [hloop] at h
            simp only [Prod.mk.injEq, Except.ok.injEq] at h
            obtain ⟨⟨hfs, hms⟩, htr⟩ := h
            subst hfs
            subst hms
            cases j with
            | zero =>
              simp only [List.getElem?_cons_zero, Option.some.injEq] at hr hm
              subst hr
              subst hm
              refine ⟨fp, b, f1, tr1, ?_, ?_, hstep⟩ <;> simp
            | succ j' =>
              obtain ⟨fp', b', f', tr2', hl, hf, hs⟩ :=
                ih m1 fs1 ms1 tr2 hloop j' r m (by simpa using hr)
                  (by simpa using hm)
              exact ⟨fp', b', f', tr2', by simpa using hl, by simpa using hf,
                hs⟩

theorem prop_loop_bin (load_img : String → Image) (predict : Predictor)
    (dk : Option Int) :
    ∀ (l : List (String × Box)) (ref : Mask) (fs : List Image)
      (ms : List Mask) (tr : List Event),
      prop_loop load_img predict dk ref l = (Except.ok (fs, ms), tr) →
      ∀ m ∈ ms, bin_pixels m := by
  intro l
  induction l with
  | nil =>
    intro ref fs ms tr h m hm
    simp only [prop_loop, Prod.mk.injEq, Except.ok.injEq] at h
    obtain ⟨⟨-, hms⟩, -⟩ := h
    rw [← hms] at hm
    simp at hm
  | cons q rest ih =>
    intro ref fs ms tr h m hm
    obtain ⟨fp, b⟩ := q
    unfold prop_loop at h
    cases hstep : prop_step load_img predict dk ref fp b with
    | mk res1 tr1 =>
      cases res1 with
      | error e => rw [hstep] at h; simp at h
      | ok p1 =>
        obtain ⟨f1, m1⟩ := p1
        rw [hstep] at h
        dsimp only [] at h
        cases hloop : prop_loop load_img predict dk m1 rest with
        | mk res2 tr2 =>
          cases res2 with
          | error e => rw [hloop] at h; simp at h
          | ok p2 =>
            obtain ⟨fs1, ms1⟩ := p2
            rw [hloop] at h
            simp only [Prod.mk.injEq, Except.ok.injEq] at h
            obtain ⟨⟨-, hms⟩, -⟩ := h
            rw [← hms] at hm
            rcases List.mem_cons.mp hm with rfl | hm1
            · obtain ⟨-, -, bmasks, scores, msel, -, hsel, hmm⟩ :=
                prop_step_sel load_img predict dk ref fp b f1 m tr1 hstep
              have hmem := mask_selection_mem _ _ _ _ _ hsel
              have hbin := bin_pixels_of_mem_binarized bmasks msel hmem
              rw [hmm]
              exact bin_pixels_apply_dilation dk msel hbin
            · exact ih m1 fs1 ms1 tr2 hloop m hm1

theorem key_stage_ok_dissect (load_img : String → Image)
    (predict : Predictor) (frame_ps : List String) (kfi : Int)
    (coords : List (Int × Int)) (labels : List Int) (kmi : Option Nat)
    (dk : Option Int) (kf : Image) (km : Mask) (tr : List Event)
    (h : key_stage load_img predict frame_ps kfi coords labels kmi dk
        = (Except.ok (kf, km), tr)) :
    kfi = 0 ∧
    ∃ p0 rest, frame_ps = p0 :: rest ∧ kf = load_img p0 ∧
    ∃ key_masks key_scores,
      predict (load_img p0) (Prompt.points coords labels)
        = some (key_masks, key_scores) ∧
    ∃ km0,
      (match kmi with
        | some i => (key_masks.map bmask_to_nat)[i]?
        | none => mask_selection (key_masks.map bmask_to_nat) key_scores
            none false) = some km0 ∧
      km = apply_dilation dk (binarize km0) ∧
      tr = [Event.seg_predict, Event.file_write "mask.png" km] := by
  unfold key_stage at h
  by_cases hk : kfi ≠ 0
  · rw [if_pos hk] at h
    cases h
  · rw [if_neg hk] at h
    push_neg at hk
    refine ⟨hk, ?_⟩
    cases frame_ps with
    | nil => cases h
    | cons p0 rest =>
      refine ⟨p0, rest, rfl, ?_⟩
      dsimp only [forward_segmentor] at h
      cases hpred : predict (load_img p0) (Prompt.points coords labels) with
      | none => rw [hpred] at h; cases h
      | some res =>
        obtain ⟨key_masks, key_scores⟩ := res
        rw [hpred] at h
        dsimp only [] at h
        cases hsel : (match kmi with
          | some i => (key_masks.map bmask_to_nat)[i]?
          | none => mask_selection (key_masks.map bmask_to_nat) key_scores
              none false) with
        | none => rw [hsel] at h; cases h
        | some km0 =>
          rw [hsel] at h
          simp only [Prod.mk.injEq, Except.ok.injEq] at h
          obtain ⟨⟨hkf, hkm⟩, htr⟩ := h
          exact ⟨hkf.symm, key_masks, key_scores, rfl, km0, hsel, hkm.symm,
            by rw [← htr, hkm]⟩

theorem key_stage_ok_of (load_img : String → Image) (predict : Predictor)
    (p0 : String) (rest : List String) (coords : List (Int × Int))
    (labels : List Int) (i : Nat) (dk : Option Int)
    (key_masks : List BMask) (key_scores : List ℚ)
    (km0 : List (List Nat))
    (hpred : predict (load_img p0) (Prompt.points coords labels)
      = some (key_masks, key_scores))
    (hidx : (key_masks.map bmask_to_nat)[i]? = some km0) :
    key_stage load_img predict (p0 :: rest) 0 coords labels (some i) dk
      = (Except.ok (load_img p0, apply_dilation dk (binarize km0)),
          [Event.seg_predict, Event.file_write "mask.png"
            (apply_dilation dk (binarize km0))]) := by
  unfold key_stage forward_segmentor
  rw [if_neg (by omega : ¬((0 : Int) ≠ 0))]
  dsimp only []
  rw [hpred]
  dsimp only []
  rw [hidx]

theorem key_mask_from_bool (kmi : Option Nat) (key_masks : List BMask)
    (key_scores : List ℚ) (km0 : List (List Nat))
    (hsel : (match kmi with
      | some i => (key_masks.map bmask_to_nat)[i]?
      | none => mask_selection (key_masks.map bmask_to_nat) key_scores
          none false) = some km0) :
    ∃ bm, bm ∈ key_masks ∧ km0 = bmask_to_nat bm := by
  have hmem : km0 ∈ key_masks.map bmask_to_nat := by
    cases kmi with
    | some i => exact List.getElem?_mem hsel
    | none => exact mask_selection_mem _ _ _ _ _ hsel
  simp only [List.mem_map] at hmem
  obtain ⟨bm, hbm, hk⟩ := hmem
  exact ⟨bm, hbm, hk.symm⟩

/-- C2: on 3 frame paths with key-frame index 0, a point prompt and a
manual key-frame mask index, `forward` returns exactly 3 frames (the input
frames, in input order), 3 masks and 3 boxes, and the first mask is the
key-frame candidate at the manual index — scoring bypassed — binarized and
optionally dilated.  The hypotheses state the adapter contracts: `predict`
always succeeds with a non-empty candidate batch, and the tracker returns
one box per frame. -/
theorem forward_three_frames
    (load_img : String → Image) (predict : Predictor) (tracker : Tracker)
    (p0 p1 p2 : String) (coords : List (Int × Int)) (labels : List Int)
    (i : Nat) (dk : Option Int)
    (hp : ∀ img p, ∃ bms ss, predict img p = some (bms, ss) ∧
      0 < bms.length ∧ bms.length = ss.length)
    (htr : ∀ ps b, (tracker ps b).length = ps.length)
    (key_masks : List BMask) (key_scores : List ℚ)
    (hkey : predict (load_img p0) (Prompt.points coords labels)
      = some (key_masks, key_scores))
    (hi : i < key_masks.length) :
    ∃ masks boxes tr km0,
      forward load_img predict tracker [p0, p1, p2] 0 coords labels
          (some i) dk
        = (Except.ok ([load_img p0, load_img p1, load_img p2], masks, boxes),
            tr) ∧
      masks.length = 3 ∧ boxes.length = 3 ∧
      (key_masks.map bmask_to_nat)[i]? = some km0 ∧
      masks[0]? = some (apply_dilation dk (binarize km0)) := by
  have hmaplen : i < (key_masks.map bmask_to_nat).length := by simpa using hi
  cases hidx : (key_masks.map bmask_to_nat)[i]? with
  | none =>
    rw [List.getElem?_eq_getElem hmaplen] at hidx
    cases hidx
  | some km0 =>
    have hks := key_stage_ok_of load_img predict p0 [p1, p2] coords labels i
      dk key_masks key_scores km0 hkey hidx
    have hlen3 : (tracker [p0, p1, p2]
        (get_box_from_mask (apply_dilation dk (binarize km0)))).length = 3 := by
      simpa using htr [p0, p1, p2]
        (get_box_from_mask (apply_dilation dk (binarize km0)))
    obtain ⟨b0, b1, b2, hbox⟩ := List.length_eq_three.mp hlen3
    obtain ⟨ms, tr2, hloop, hmslen⟩ :=
      prop_loop_ok load_img predict dk hp [(p1, b1), (p2, b2)]
        (apply_dilation dk (binarize km0))
    refine ⟨apply_dilation dk (binarize km0) :: ms, [b0, b1, b2],
      [Event.seg_predict, Event.file_write "mask.png"
        (apply_dilation dk (binarize km0))] ++ Event.tracker_run :: tr2,
      km0, ?_, by simp [hmslen], by simp, rfl, by simp⟩
    unfold forward forward_tracker
    rw [hks]
    dsimp only []
    rw [hbox]
    dsimp only [List.drop, List.zip, List.zipWith]
    rw [hloop]
    exact rfl

/-- Witness for C2: a concrete 3-frame run with constant oracles. -/
theorem forward_three_frames_witness :
    ∃ masks boxes tr km0,
      forward cLoad cPredict cTrack ["f0", "f1", "f2"] 0 [] [] (some 0) none
        = (Except.ok ([cLoad "f0", cLoad "f1", cLoad "f2"], masks, boxes),
            tr) ∧
      masks.length = 3 ∧ boxes.length = 3 ∧
      ([[[true]]].map bmask_to_nat)[0]? = some km0 ∧
      masks[0]? = some (apply_dilation none (binarize km0)) :=
  forward_three_frames cLoad cPredict cTrack "f0" "f1" "f2" [] [] 0 none
    (fun img p => ⟨[[[true]]], [1], rfl, by decide, rfl⟩)
    (fun ps b => by simp [cTrack])
    [[[true]]] [1] rfl (by decide)

/-- C7: in every successful `forward` run, the mask recorded for any frame
index `j + 1` is produced by the propagation step — segmentation of that
frame prompted by its tracked box, then `mask_selection` — using the mask
recorded for frame `j` as the reference mask (the key-frame mask serving
as reference for frame 1); the loop has no recovery or backtracking step
that breaks this chain. -/
theorem forward_mask_chain (load_img : String → Image) (predict : Predictor)
    (tracker : Tracker) (frame_ps : List String) (kfi : Int)
    (coords : List (Int × Int)) (labels : List Int) (kmi : Option Nat)
    (dk : Option Int) (frames : List Image) (masks : List Mask)
    (boxes : List Box) (tr : List Event)
    (hok : forward load_img predict tracker frame_ps kfi coords labels kmi dk
      = (Except.ok (frames, masks, boxes), tr)) :
    ∀ (j : Nat) (r m : Mask), masks[j]? = some r → masks[j + 1]? = some m →
      ∃ fp b f tr2, frame_ps[j + 1]? = some fp ∧ boxes[j + 1]? = some b ∧
        frames[j + 1]? = some f ∧
        prop_step load_img predict dk r fp b = (Except.ok (f, m), tr2) := by
  intro j r m hr hm
  unfold forward at hok
  cases hks : key_stage load_img predict frame_ps kfi coords labels kmi dk with
  | mk res0 tr0 =>
    cases res0 with
    | error e => rw [hks] at hok; simp at hok
    | ok q0 =>
      obtain ⟨kf, km⟩ := q0
      rw [hks] at hok
      dsimp only [] at hok
      cases hloop : prop_loop load_img predict dk km
          ((frame_ps.drop 1).zip
            ((forward_tracker tracker frame_ps (get_box_from_mask km)).drop 1))
          with
      | mk res1 tr2 =>
        cases res1 with
        | error e => rw [hloop] at hok; simp at hok
        | ok q1 =>
          obtain ⟨fs, ms⟩ := q1
          rw [hloop] at hok
          simp only [Prod.mk.injEq, Except.ok.injEq] at hok
          obtain ⟨⟨hframes, hmasks, hboxes⟩, -⟩ := hok
          subst hframes
          subst hmasks
          subst hboxes
          obtain ⟨fp, b, f, tr3, hl, hf, hs⟩ :=
            prop_loop_chain load_img predict dk _ km fs ms tr2 hloop j r m
              hr (by simpa using hm)
          obtain ⟨hfp, hb⟩ := zip_getElem?_some _ _ j fp b hl
          rw [List.getElem?_drop] at hfp hb
          rw [Nat.add_comm 1 j] at hfp hb
          exact ⟨fp, b, f, tr3, hfp, hb, by simpa using hf, hs⟩

/-- Witness for C7: a concrete 2-frame run; the chain property is applied
to the run's actual output lists at frame index 1. -/
theorem forward_mask_chain_witness :
    ∃ fp b f tr2, (["f0", "f1"] : List String)[0 + 1]? = some fp ∧
      ([((0 : Int), (0 : Int), (0 : Int), (0 : Int)),
        ((0 : Int), (0 : Int), (0 : Int), (0 : Int))] : List Box)[0 + 1]?
        = some b ∧
      ([[[7]], [[7]]] : List Image)[0 + 1]? = some f ∧
      prop_step cLoad cPredict none [[255]] fp b
        = (Except.ok (f, [[255]]), tr2) :=
  forward_mask_chain cLoad cPredict cTrack ["f0", "f1"] 0 [] [] (some 0)
    none [[[7]], [[7]]] [[[255]], [[255]]]
    [(0, 0, 0, 0), (0, 0, 0, 0)]
    [Event.seg_predict, Event.file_write "mask.png" [[255]],
      Event.tracker_run, Event.seg_predict] rfl 0 [[255]] [[255]] rfl rfl

/-- C8: every mask in the sequence result of a successful `forward` run has
only pixel values 0 or 255 — the segmentor's boolean candidates are scaled
by 255 (binarization), and both mask selection and the optional dilation
preserve the binary range. -/
theorem forward_masks_binary (load_img : String → Image)
    (predict : Predictor) (tracker : Tracker) (frame_ps : List String)
    (kfi : Int) (coords : List (Int × Int)) (labels : List Int)
    (kmi : Option Nat) (dk : Option Int) (frames : List Image)
    (masks : List Mask) (boxes : List Box) (tr : List Event)
    (hok : forward load_img predict tracker frame_ps kfi coords labels kmi dk
      = (Except.ok (frames, masks, boxes), tr)) :
    ∀ m ∈ masks, bin_pixels m := by
  intro m hmem
  unfold forward at hok
  cases hks : key_stage load_img predict frame_ps kfi coords labels kmi dk with
  | mk res0 tr0 =>
    cases res0 with
    | error e => rw [hks] at hok; simp at hok
    | ok q0 =>
      obtain ⟨kf, km⟩ := q0
      rw [hks] at hok
      dsimp only [] at hok
      cases hloop : prop_loop load_img predict dk km
          ((frame_ps.drop 1).zip
            ((forward_tracker tracker frame_ps (get_box_from_mask km)).drop 1))
          with
      | mk res1 tr2 =>
        cases res1 with
        | error e => rw [hloop] at hok; simp at hok
        | ok q1 =>
          obtain ⟨fs, ms⟩ := q1
          rw [hloop] at hok
          simp only [Prod.mk.injEq, Except.ok.injEq] at hok
          obtain ⟨⟨-, hmasks, -⟩, -⟩ := hok
          rw [← hmasks] at hmem
          rcases List.mem_cons.mp hmem with rfl | hm1
          · obtain ⟨-, -, -, -, -, kms, kss, -, km0, hsel, hkm, -⟩ :=
              key_stage_ok_dissect load_img predict frame_ps kfi coords
                labels kmi dk kf m tr0 hks
            obtain ⟨bm, -, rfl⟩ := key_mask_from_bool kmi kms kss km0 hsel
            rw [hkm]
            exact bin_pixels_apply_dilation dk _ (bin_pixels_binarize_bmask bm)
          · exact prop_loop_bin load_img predict dk _ km fs ms tr2 hloop m hm1

/-- Witness for C8: a concrete 1-frame run whose single result mask is
`[[255]]`. -/
theorem forward_masks_binary_witness :
    bin_pixels [[255]] :=
  forward_masks_binary cLoad cPredict cTrack ["g0"] 0 [] [] (some 0) none
    [[[7]]] [[[255]]] [(0, 0, 0, 0)]
    [Event.seg_predict, Event.file_write "mask.png" [[255]],
      Event.tracker_run] rfl [[255]] (by simp)

/-- C10: every `forward` invocation that passes the key-frame stage writes
the selected, binarized and optionally dilated key-frame mask to the file
`"mask.png"` — the write event is in the trace whatever the later stages
do — and on success that same mask is the first mask of the result. -/
theorem forward_writes_key_mask (load_img : String → Image)
    (predict : Predictor) (tracker : Tracker) (frame_ps : List String)
    (kfi : Int) (coords : List (Int × Int)) (labels : List Int)
    (kmi : Option Nat) (dk : Option Int) (kf : Image) (km : Mask)
    (tr0 : List Event)
    (res : Except String (List Image × List Mask × List Box))
    (tr : List Event)
    (hks : key_stage load_img predict frame_ps kfi coords labels kmi dk
      = (Except.ok (kf, km), tr0))
    (hfw : forward load_img predict tracker frame_ps kfi coords labels kmi dk
      = (res, tr)) :
    Event.file_write "mask.png" km ∈ tr ∧
    ∀ frames masks boxes, res = Except.ok (frames, masks, boxes) →
      masks[0]? = some km := by
  obtain ⟨-, p0, rest, -, -, kms, kss, -, km0, -, -, htr0⟩ :=
    key_stage_ok_dissect load_img predict frame_ps kfi coords labels kmi dk
      kf km tr0 hks
  unfold forward at hfw
  rw [hks] at hfw
  dsimp only [] at hfw
  cases hloop : prop_loop load_img predict dk km
      ((frame_ps.drop 1).zip
        ((forward_tracker tracker frame_ps (get_box_from_mask km)).drop 1))
      with
  | mk res1 tr2 =>
    cases res1 with
    | error e =>
      rw [hloop] at hfw
      simp only [Prod.mk.injEq] at hfw
      obtain ⟨hres, htr⟩ := hfw
      constructor
      · rw [← htr, htr0]
        simp
      · intro frames masks boxes hok
        rw [← hres] at hok
        cases hok
    | ok q1 =>
      obtain ⟨fs, ms⟩ := q1
      rw [hloop] at hfw
      simp only [Prod.mk.injEq] at hfw
      obtain ⟨hres, htr⟩ := hfw
      constructor
      · rw [← htr, htr0]
        simp
      · intro frames masks boxes hok
        rw [← hres] at hok
        simp only [Except.ok.injEq, Prod.mk.injEq] at hok
        obtain ⟨-, hmasks, -⟩ := hok
        rw [← hmasks]
        simp

/-- Witness for C10: a concrete 1-frame run; the key mask `[[255]]` is
both written to `"mask.png"` and returned as the first result mask. -/
theorem forward_writes_key_mask_witness :
    Event.file_write "mask.png" [[255]] ∈
      ([Event.seg_predict, Event.file_write "mask.png" [[255]],
        Event.tracker_run] : List Event) ∧
    ∀ frames masks boxes,
      (Except.ok ([[[7]]], [[[255]]],
          [((0 : Int), (0 : Int), (0 : Int), (0 : Int))])
        : Except String (List Image × List Mask × List Box))
        = Except.ok (frames, masks, boxes) →
      masks[0]? = some [[255]] :=
  forward_writes_key_mask cLoad cPredict cTrack ["f0"] 0 [] [] (some 0) none
    [[7]] [[255]]
    [Event.seg_predict, Event.file_write "mask.png" [[255]]]
    (Except.ok ([[[7]]], [[[255]]], [(0, 0, 0, 0)]))
    [Event.seg_predict, Event.file_write "mask.png" [[255]],
      Event.tracker_run] rfl rfl

end RAV
